import Mathlib

/-!
Shallow embedding of `nnbar::LArCVMaker` (src/nnbar/LArCVMaker/LArCVMaker_module.cc).

The wire-signal store `fWireMap` (a `std::map<int,std::vector<float>>`) is modelled as an
association list from channel id to its ordered sample sequence; ADC amplitudes (C++ `float`)
are modelled as exact rationals.  C++ truncated integer division and remainder are modelled
with `Int.tdiv` and `Int.tmod`.  The member-field state `fFirstWire .. fNumberTicks` is the
`ROI` record; `FindROI` threads the wire map through every `operator[]` access so that its
effect (or absence of effect) on the map is part of the model.  `exit(1)` is modelled as the
`fatal` result, the `-1` sentinel return as `noROI`.
-/

namespace LArCVMaker

/-- Model of `std::map<int, std::vector<float>> fWireMap`. -/
abbrev WireMap := List (Int × List ℚ)

/-- Model of `fWireMap.find(c) != fWireMap.end()`. -/
def wmContains (m : WireMap) (c : Int) : Bool := (m.lookup c).isSome

/-- Model of `fWireMap[c]` (`std::map::operator[]`): returns the mapped sample vector,
default-inserting an empty vector when the key is absent. -/
def wmGet (m : WireMap) (c : Int) : List ℚ × WireMap :=
  match m.lookup c with
  | some s => (s, m)
  | none => ([], m ++ [(c, [])])

/-- Model of `fWireMap.insert(std::pair(c, s))` (`std::map::insert`): inserts only when the
key is absent; an existing entry is kept unchanged. -/
def wmInsert (m : WireMap) (c : Int) (s : List ℚ) : WireMap :=
  if (m.lookup c).isSome then m else m ++ [(c, s)]

/-- The ROI member fields of the module. -/
structure ROI where
  fFirstWire : Int
  fLastWire : Int
  fFirstTick : Int
  fLastTick : Int
  fNumberWires : Int
  fNumberTicks : Int
deriving DecidableEq

/-- `LArCVMaker::ResetROI`: every field is reset to the `-1` sentinel. -/
def ResetROI : ROI := ⟨-1, -1, -1, -1, -1, -1⟩

/-- `LArCVMaker::SetROISize`: recompute the wire and tick counts from the bounds. -/
def SetROISize (r : ROI) : ROI :=
  { r with fNumberWires := r.fLastWire - r.fFirstWire + 1,
           fNumberTicks := r.fLastTick - r.fFirstTick + 1 }

/-- `const int fNumberChannels[3] = ( 800, 800, 960 )`. -/
def fNumberChannels (p : Fin 3) : Int :=
  if p = 0 then 800 else if p = 1 then 800 else 960

/-- `const int fFirstChannel[3] = ( 0, 800, 1600 )`. -/
def fFirstChannel (p : Fin 3) : Int :=
  if p = 0 then 0 else if p = 1 then 800 else 1600

/-- `const int fLastChannel[3] = ( 799, 1599, 2559 )`. -/
def fLastChannel (p : Fin 3) : Int :=
  if p = 0 then 799 else if p = 1 then 1599 else 2559

/-- One iteration of the innermost bounding-box loop of `FindROI`: when the sample exceeds
the ADC cut, update the four tracked bounds with their `-1`-sentinel initialisation logic. -/
def scanSample (cut : ℚ) (channel tick : Int) (a : ℚ) (r : ROI) : ROI :=
  if a > cut then
    { r with
      fFirstWire := if r.fFirstWire = -1 ∨ r.fFirstWire > channel then channel else r.fFirstWire,
      fLastWire := if r.fLastWire = -1 ∨ r.fLastWire < channel then channel else r.fLastWire,
      fFirstTick := if r.fFirstTick = -1 ∨ r.fFirstTick > tick then tick else r.fFirstTick,
      fLastTick := if r.fLastTick = -1 ∨ r.fLastTick < tick then tick else r.fLastTick }
  else r

/-- The tick loop of `FindROI`'s bounding-box scan over one channel's sample vector. -/
def scanChannel (cut : ℚ) (channel : Int) (s : List ℚ) (r : ROI) : ROI :=
  s.enum.foldl (fun acc p => scanSample cut channel (p.1 : Int) p.2 acc) r

/-- One iteration of the channel loop of `FindROI`'s bounding-box scan: the tick loop runs
only when the channel is present in the wire map (`fWireMap.find != end`); the sample vector
is then read through `operator[]`, whose (never exercised) default-insertion is threaded.
The C++ calls `operator[]` again on every tick iteration; as the key is present and nothing
mutates the map, those repeated reads return the same vector and are collapsed into one. -/
def scanStep (cut : ℚ) (firstC : Int) (acc : ROI × WireMap) (i : ℕ) : ROI × WireMap :=
  let channel := firstC + (i : Int)
  if wmContains acc.2 channel then
    let g := wmGet acc.2 channel
    (scanChannel cut channel g.1 acc.1, g.2)
  else acc

/-- The bounding-box scan of `FindROI`: `for (channel = first_channel; channel < last_channel;
++channel)` — note the strict upper bound, which leaves the range's last channel unvisited. -/
def scanPhase (wm : WireMap) (cut : ℚ) (firstC lastC : Int) : ROI × WireMap :=
  (List.range (lastC - firstC).toNat).foldl (scanStep cut firstC) (ResetROI, wm)

/-- Outcome of `FindROI`: `fatal` models `exit(1)`, `noROI` the `-1` sentinel return, and
`ok downsample roi` a successful return of `downsample` with the final member-field state. -/
inductive FindROIResult where
  | fatal : FindROIResult
  | noROI : FindROIResult
  | ok : Int → ROI → FindROIResult
deriving DecidableEq

/-- The "make sure number of wires is even" correction of `FindROI`: extend by one wire on
the last-wire side when in bounds, otherwise on the first-wire side, otherwise `exit(1)`. -/
def wireParity (first_channel last_channel downsample : Int) (r : ROI) : Option ROI :=
  if r.fNumberWires.tmod downsample = 1 ∧ r.fLastWire < last_channel then
    some (SetROISize { r with fLastWire := r.fLastWire + 1, fNumberWires := r.fNumberWires + 1 })
  else if r.fNumberWires.tmod downsample = 1 ∧ r.fFirstWire > first_channel then
    some (SetROISize { r with fFirstWire := r.fFirstWire - 1, fNumberWires := r.fNumberWires + 1 })
  else if r.fNumberWires.tmod downsample = 1 then
    none
  else some (SetROISize r)

/-- `ticks_to_add` of `FindROI`: the padding needed to bring a tick count `nt` up to the
next multiple of `order` (`0` when already divisible; remainders use C++ truncated `%`). -/
def padTo (order nt : Int) : Int :=
  if nt.tmod order ≠ 0 then order - nt.tmod order else 0

/-- The "deal with start of ROI" step of `FindROI`'s tick correction: move the first tick
down by `margin + ticks_to_add`, clamped at the canonical window's first tick. -/
def tickStart (first_tick margin t0 : Int) (r : ROI) : ROI :=
  SetROISize { r with fFirstTick :=
    if r.fFirstTick - (margin + t0) < first_tick then first_tick
    else r.fFirstTick - (margin + t0) }

/-- The "now deal with end of ROI" step of `FindROI`'s tick correction: move the last tick
up by `margin + ticks_to_add`, clamped at the canonical window's last tick. -/
def tickEnd (last_tick margin t2 : Int) (r : ROI) : ROI :=
  SetROISize { r with fLastTick :=
    if r.fLastTick + margin + t2 > last_tick then last_tick
    else r.fLastTick + margin + t2 }

/-- The "now mop up any residual" step of `FindROI`'s tick correction: when the count is
still not a multiple of `order`, move the first tick down by the remaining padding, clamped
at the canonical window's first tick. -/
def tickResidual (first_tick order : Int) (r : ROI) : ROI :=
  if r.fNumberTicks.tmod order ≠ 0 then
    SetROISize { r with fFirstTick :=
      if r.fFirstTick - padTo order r.fNumberTicks < first_tick then first_tick
      else r.fFirstTick - padTo order r.fNumberTicks }
  else r

/-- The "make sure number of ticks is good" correction of `FindROI`: clamp to the canonical
tick window when the margins plus divisibility padding would not fit, otherwise pad the start,
then the end, then run one residual pass; a remaining divisibility failure is `exit(1)`. -/
def tickPhase (downsample : Int) (r : ROI) : Option ROI :=
  let first_tick : Int := if downsample = 1 then 0 else 2
  let last_tick : Int := if downsample = 1 then 4491 else 4489
  let num_ticks := last_tick - first_tick
  let order := 4 * downsample
  let margin := 40 * downsample
  let t0 := padTo order r.fNumberTicks
  if r.fNumberTicks + 2 * margin + t0 > num_ticks then
    some (SetROISize { r with fFirstTick := first_tick, fLastTick := last_tick })
  else
    let r1 := tickStart first_tick margin t0 r
    let r2 := tickEnd last_tick margin (padTo order r1.fNumberTicks) r1
    let r3 := tickResidual first_tick order r2
    if r3.fNumberTicks.tmod order ≠ 0 then none else some (SetROISize r3)

/-- The "add margin in wire dimension" step of `FindROI`: widen each wire bound by `margin`,
clamped to the plane's channel bounds (the two updates are independent: the second reads
only `fLastWire`, which the first does not touch). -/
def wireMargin (first_channel last_channel margin : Int) (r : ROI) : ROI :=
  SetROISize { r with
    fFirstWire :=
      if r.fFirstWire - margin < first_channel then first_channel else r.fFirstWire - margin,
    fLastWire :=
      if r.fLastWire + margin > last_channel then last_channel else r.fLastWire + margin }

/-- The post-scan part of `FindROI` acting on the `SetROISize`d scan result: downsample
decision, wire margins, wire-evenness correction, then the tick correction. -/
def roiCorrect (first_channel last_channel : Int) (r1 : ROI) : Option (Int × ROI) :=
  let downsample : Int := if r1.fNumberWires > 600 ∨ r1.fNumberTicks.tdiv 4 > 600 then 2 else 1
  let r4 := wireMargin first_channel last_channel (10 * downsample) r1
  match wireParity first_channel last_channel downsample r4 with
  | none => none
  | some r5 =>
    match tickPhase downsample r5 with
    | none => none
    | some r6 => some (downsample, r6)

/-- `LArCVMaker::FindROI(apa, plane)`.  Besides the result, the final wire map is returned,
making the call's effect on `fWireMap` part of the model. -/
def FindROI (wm : WireMap) (cut : ℚ) (apa : Int) (p : Fin 3) : FindROIResult × WireMap :=
  let first_channel := 2560 * apa + fFirstChannel p
  let last_channel := 2560 * apa + fLastChannel p
  let sr := scanPhase wm cut first_channel last_channel
  if sr.1.fFirstWire = -1 ∨ sr.1.fLastWire = -1 ∨ sr.1.fFirstTick = -1 ∨ sr.1.fLastTick = -1 then
    (.noROI, sr.2)
  else
    match roiCorrect first_channel last_channel (SetROISize sr.1) with
    | none => (.fatal, sr.2)
    | some dr => (.ok dr.1 dr.2, sr.2)

/-- One cell of the `FindBestAPA` amplitude sum: the sample at `(addr, y)` when the channel
is present and the tick is within its sample vector, and `0` otherwise (nothing is added). -/
def cellADC (wm : WireMap) (addr : Int) (y : ℕ) : ℚ :=
  match wm.lookup addr with
  | some s => s.getD y 0
  | none => 0

/-- The triple loop of `FindBestAPA`: sum of the amplitudes over all three planes, all
channels of each plane inside `apa`, and all ticks in `[0, fMaxTick)`. -/
def sumADC (wm : WireMap) (maxTick : ℕ) (apa : Int) : ℚ :=
  ((List.finRange 3).map fun p =>
    ((List.range (fNumberChannels p).toNat).map fun x =>
      ((List.range maxTick).map fun y =>
        cellADC wm (apa * 2560 + fFirstChannel p + (x : Int)) y).sum).sum).sum

/-- The candidate loop of `FindBestAPA` with its running `best_apa`/`best_adc` state: the
running best is replaced when the candidate's sum is strictly greater, or when `best_apa`
still holds the initial `-1`. -/
def bestLoop (wm : WireMap) (maxTick : ℕ) : List Int → Int → ℚ → Int
  | [], best_apa, _ => best_apa
  | apa :: rest, best_apa, best_adc =>
    let max_adc := sumADC wm maxTick apa
    if max_adc > best_adc ∨ best_apa = -1 then bestLoop wm maxTick rest apa max_adc
    else bestLoop wm maxTick rest best_apa best_adc

/-- `LArCVMaker::FindBestAPA(apas)`: starts from `best_apa = -1`, `best_adc = -1`. -/
def FindBestAPA (wm : WireMap) (maxTick : ℕ) (apas : List Int) : Int :=
  bestLoop wm maxTick apas (-1) (-1)

/-- The wire-map fill loop of `analyze`: ingest every `(channel, samples)` pair with
`std::map::insert` and collect the distinct APA indices `channel / 2560` in first-touch
order. -/
def fillWireMap (wires : List (Int × List ℚ)) : WireMap × List Int :=
  wires.foldl
    (fun acc w =>
      (wmInsert acc.1 w.1 w.2,
        if w.1.tdiv 2560 ∈ acc.2 then acc.2 else acc.2 ++ [w.1.tdiv 2560]))
    ([], [])

/-- Cell `(x, y)` of the intermediate grid `image_temp` of `analyze`: the sample of channel
`fFirstWire + x` at tick `fFirstTick + y` when the channel is present in the wire map, and
`0` otherwise.  The C++ reads `fWireMap[channel][tick]` without checking the tick against
the vector size — an out-of-range read (see `gridReadsInBounds`) — modelled here as `0`. -/
def tempPixel (wm : WireMap) (r : ROI) (x y : ℕ) : ℚ :=
  match wm.lookup (r.fFirstWire + (x : Int)) with
  | some s => s.getD (r.fFirstTick + (y : Int)).toNat 0
  | none => 0

/-- Modelled from the spec: `larcv::Image2D::compress` is library code that is not part of
this repository; §4.4 specifies block summation over `downsample × (4·downsample)` blocks of
the intermediate grid. -/
def compressedPixel (wm : WireMap) (r : ROI) (ds : Int) (x y : ℕ) : ℚ :=
  (((List.range ds.toNat).map fun i =>
    ((List.range (4 * ds).toNat).map fun j =>
      tempPixel wm r (x * ds.toNat + i) (y * (4 * ds).toNat + j)).sum).sum)

/-- The canvas write loop of `analyze`: a fixed 600×600 image; cell `(x, y)` holds the
compressed pixel when `x < image_width ∧ y < image_height`, and `0` otherwise. -/
def buildCanvas (w h : Int) (pix : ℕ → ℕ → ℚ) : List (List ℚ) :=
  (List.range 600).map fun (x : ℕ) =>
    (List.range 600).map fun (y : ℕ) =>
      if (x : Int) < w ∧ (y : Int) < h then pix x y else 0

/-- One iteration of the image-production loop of `analyze`: re-run `FindROI` and build the
600×600 canvas from the compressed grid.  The non-`ok` cases are unreachable after the check
loop (`FindROI` is deterministic) and are modelled as an abort. -/
def buildPlane (wm : WireMap) (cut : ℚ) (apa : Int) (p : Fin 3) : Option (List (List ℚ)) :=
  match (FindROI wm cut apa p).1 with
  | .ok ds r =>
    some (buildCanvas (r.fNumberWires.tdiv ds) (r.fNumberTicks.tdiv (4 * ds))
      (compressedPixel wm r ds))
  | _ => none

/-- The per-event output record handed to the output manager: three images plus the
configured event-type tag. -/
structure EventRecord where
  images : List (List (List ℚ))
  eventType : Int

/-- `LArCVMaker::analyze`: `none` models a run abort (`exit(1)` inside `FindROI`),
`some none` a skipped event (no output), and `some (some rec)` an emitted event record.
The three planes are checked sequentially, exactly as in the check loop of the source. -/
def analyze (wires : List (Int × List ℚ)) (maxTick : ℕ) (cut : ℚ) (eventType : Int) :
    Option (Option EventRecord) :=
  let wm := (fillWireMap wires).1
  let apas := (fillWireMap wires).2
  if apas = [] then some none
  else
    let best_apa := FindBestAPA wm maxTick apas
    if best_apa = -1 then some none
    else
      match (FindROI wm cut best_apa 0).1 with
      | .fatal => none
      | .noROI => some none
      | .ok _ _ =>
        match (FindROI wm cut best_apa 1).1 with
        | .fatal => none
        | .noROI => some none
        | .ok _ _ =>
          match (FindROI wm cut best_apa 2).1 with
          | .fatal => none
          | .noROI => some none
          | .ok _ _ =>
            match buildPlane wm cut best_apa 0, buildPlane wm cut best_apa 1,
                buildPlane wm cut best_apa 2 with
            | some i0, some i1, some i2 => some (some ⟨[i0, i1, i2], eventType⟩)
            | _, _, _ => none

/-- `true` exactly when `analyze` emitted an event record. -/
def emitted : Option (Option EventRecord) → Bool
  | some (some _) => true
  | _ => false

/-- Whether every sample-vector access `fWireMap[channel][tick]` performed by the
intermediate-grid fill loop of `analyze` over the ROI `r` is within the bounds of the
channel's stored sample vector. -/
def gridReadsInBounds (wm : WireMap) (r : ROI) : Bool :=
  (List.range r.fNumberWires.toNat).all fun i =>
    (List.range r.fNumberTicks.toNat).all fun t =>
      match wm.lookup (r.fFirstWire + (i : Int)) with
      | some s => decide (r.fFirstTick + (t : Int) < (s.length : Int))
      | none => true

/-- Invariant of the bounding-box scan state: each bound pair is either still at its `-1`
sentinel, or it is an honest pair of bounds — wires inside the scanned channel range,
ticks non-negative and ordered. -/
def ScanInv (firstC lastC : Int) (r : ROI) : Prop :=
  ((r.fFirstWire = -1 ∧ r.fLastWire = -1) ∨
    (firstC ≤ r.fFirstWire ∧ r.fFirstWire ≤ r.fLastWire ∧ r.fLastWire < lastC)) ∧
  ((r.fFirstTick = -1 ∧ r.fLastTick = -1) ∨ (0 ≤ r.fFirstTick ∧ r.fFirstTick ≤ r.fLastTick))

/-! ### Helper lemmas: the bounding-box scan -/

/-- Fold preservation of an invariant. -/
theorem foldl_inv {α β : Type _} {P : α → Prop} {f : α → β → α}
    (h : ∀ a b, P a → P (f a b)) : ∀ (l : List β) (a : α), P a → P (l.foldl f a) := by
  intro l
  induction l with
  | nil => intro a ha; exact ha
  | cons x xs ih => intro a ha; exact ih (f a x) (h a x ha)

/-- Fold preservation of an invariant, with membership available at each step. -/
theorem foldl_inv_mem {α β : Type _} {P : α → Prop} :
    ∀ (l : List β) (f : α → β → α),
      (∀ a b, b ∈ l → P a → P (f a b)) → ∀ a, P a → P (l.foldl f a) := by
  intro l
  induction l with
  | nil => intro f _ a ha; exact ha
  | cons x xs ih =>
    intro f h a ha
    exact ih f (fun a b hb hp => h a b (List.mem_cons_of_mem x hb) hp)
      (f a x) (h a x (List.mem_cons_self x xs) ha)

/-- A guarded `operator[]` access leaves the map unchanged. -/
theorem wmGet_snd_of_contains {m : WireMap} {c : Int} (h : wmContains m c = true) :
    (wmGet m c).2 = m := by
  unfold wmContains at h
  unfold wmGet
  cases hl : m.lookup c with
  | none => simp [hl] at h
  | some s => rfl

theorem scanSample_inv {firstC lastC channel tick : Int} (cut a : ℚ) {r : ROI}
    (hc : firstC ≤ channel ∧ channel < lastC) (ht : 0 ≤ tick)
    (hr : ScanInv firstC lastC r) : ScanInv firstC lastC (scanSample cut channel tick a r) := by
  obtain ⟨fw, lw, ft, lt, nw, nt⟩ := r
  unfold ScanInv at *
  unfold scanSample
  dsimp only at *
  split
  · dsimp only
    constructor
    · rcases hr.1 with h1 | h1 <;> split_ifs <;> omega
    · rcases hr.2 with h2 | h2 <;> split_ifs <;> omega
  · exact hr

theorem scanChannel_inv {firstC lastC channel : Int} (cut : ℚ) (s : List ℚ) {r : ROI}
    (hc : firstC ≤ channel ∧ channel < lastC)
    (hr : ScanInv firstC lastC r) : ScanInv firstC lastC (scanChannel cut channel s r) := by
  unfold scanChannel
  refine foldl_inv (P := ScanInv firstC lastC) ?_ s.enum r hr
  intro r' p hr'
  exact scanSample_inv cut p.2 hc (Int.ofNat_nonneg p.1) hr'

theorem scanPhase_spec (wm : WireMap) (cut : ℚ) (firstC lastC : Int) :
    ScanInv firstC lastC (scanPhase wm cut firstC lastC).1 ∧
      (scanPhase wm cut firstC lastC).2 = wm := by
  unfold scanPhase
  refine foldl_inv_mem (P := fun acc : ROI × WireMap =>
    ScanInv firstC lastC acc.1 ∧ acc.2 = wm) _ _ ?_ _ ?_
  · intro acc i hi ⟨hinv, hmap⟩
    have hi' : (i : Int) < lastC - firstC := by
      have := List.mem_range.mp hi
      omega
    unfold scanStep
    dsimp only
    split
    · rename_i hcont
      refine ⟨scanChannel_inv cut _ ⟨by omega, by omega⟩ hinv, ?_⟩
      rw [wmGet_snd_of_contains hcont, hmap]
    · exact ⟨hinv, hmap⟩
  · exact ⟨⟨Or.inl ⟨rfl, rfl⟩, Or.inl ⟨rfl, rfl⟩⟩, rfl⟩

/-- C10: `FindROI` does not modify the wire-signal store: the channel-to-samples map after
the call equals the map before the call, for every input. -/
theorem findROI_preserves_wireMap (wm : WireMap) (cut : ℚ) (apa : Int) (p : Fin 3) :
    (FindROI wm cut apa p).2 = wm := by
  unfold FindROI
  dsimp only
  split
  · exact (scanPhase_spec wm cut _ _).2
  · split
    · exact (scanPhase_spec wm cut _ _).2
    · exact (scanPhase_spec wm cut _ _).2

/-! ### Helper lemmas: C++ truncated division and remainder -/

theorem tmod_neg_bounds {a b : Int} (ha : a < 0) (hb : 0 < b) :
    -b < a.tmod b ∧ a.tmod b ≤ 0 := by
  match a, b with
  | .negSucc m, .ofNat n =>
    have hn : 0 < n := by
      simp only [Int.ofNat_eq_coe] at hb
      exact_mod_cast hb
    have hmod : Nat.succ m % n < n := Nat.mod_lt _ hn
    refine ⟨?_, ?_⟩
    · show -Int.ofNat n < -Int.ofNat (Nat.succ m % n)
      exact Int.neg_lt_neg (Int.ofNat_lt.mpr hmod)
    · show -Int.ofNat (Nat.succ m % n) ≤ 0
      exact neg_nonpos.mpr (Int.ofNat_nonneg _)
  | .ofNat m, _ =>
    simp only [Int.ofNat_eq_coe] at ha
    omega
  | .negSucc m, .negSucc n =>
    simp only [Int.negSucc_eq] at hb
    omega

theorem tmod_range (a : Int) {b : Int} (hb : 0 < b) : -b < a.tmod b ∧ a.tmod b < b := by
  refine ⟨?_, Int.tmod_lt_of_pos a hb⟩
  rcases Int.lt_or_le a 0 with ha | ha
  · exact (tmod_neg_bounds ha hb).1
  · have := Int.tmod_nonneg b ha
    omega

theorem padTo_bounds (nt : Int) {order : Int} (ho : 0 < order) :
    0 ≤ padTo order nt ∧ padTo order nt ≤ 2 * order - 1 := by
  unfold padTo
  have := tmod_range nt ho
  split <;> omega

theorem padTo_bounds_of_nonneg {nt order : Int} (ho : 0 < order) (hnt : 0 ≤ nt) :
    0 ≤ padTo order nt ∧ padTo order nt ≤ order - 1 := by
  unfold padTo
  have h1 := Int.tmod_nonneg order hnt
  have h2 := Int.tmod_lt_of_pos nt ho
  split <;> omega

theorem tdiv_nonpos_of_neg {a d : Int} (ha : a < 0) (hd : 0 < d) : a.tdiv d ≤ 0 := by
  match a, d with
  | .negSucc m, .ofNat n =>
    show -Int.ofNat (Nat.succ m / n) ≤ 0
    exact neg_nonpos.mpr (Int.ofNat_nonneg _)
  | .ofNat m, _ =>
    simp only [Int.ofNat_eq_coe] at ha
    omega
  | .negSucc m, .negSucc n =>
    simp only [Int.negSucc_eq] at hd
    omega

theorem tdiv_le_of_le {a b d : Int} (h : a ≤ b) (hb : 0 ≤ b) (hd : 0 < d) :
    a.tdiv d ≤ b.tdiv d := by
  rcases Int.lt_or_le a 0 with ha | ha
  · have h1 : a.tdiv d ≤ 0 := tdiv_nonpos_of_neg ha hd
    have h2 : (0 : Int) ≤ b.tdiv d := Int.tdiv_nonneg hb (by omega)
    omega
  · rw [Int.tdiv_eq_ediv ha (by omega), Int.tdiv_eq_ediv hb (by omega)]
    exact Int.ediv_le_ediv hd h

theorem tmod_two_cases {a : Int} (ha : 0 ≤ a) : a.tmod 2 = 0 ∨ a.tmod 2 = 1 := by
  have h1 := Int.tmod_nonneg 2 ha
  have h2 := Int.tmod_lt_of_pos a (b := 2) (by omega)
  omega

/-! ### Helper lemmas: the wire margin and parity correction -/

theorem wireParity_ok {fc lc ds : Int} {r r' : ROI}
    (hds : ds = 1 ∨ ds = 2)
    (hb : fc ≤ r.fFirstWire ∧ r.fFirstWire ≤ r.fLastWire ∧ r.fLastWire ≤ lc)
    (hn : r.fNumberWires = r.fLastWire - r.fFirstWire + 1)
    (h : wireParity fc lc ds r = some r') :
    r'.fNumberWires.tmod ds = 0 ∧
    r'.fNumberWires ≤ r.fNumberWires + 1 ∧
    (ds = 1 → r'.fNumberWires = r.fNumberWires) ∧
    fc ≤ r'.fFirstWire ∧ r'.fFirstWire ≤ r'.fLastWire ∧ r'.fLastWire ≤ lc ∧
    r'.fNumberWires = r'.fLastWire - r'.fFirstWire + 1 ∧
    r'.fFirstTick = r.fFirstTick ∧ r'.fLastTick = r.fLastTick ∧
    r'.fNumberTicks = r.fLastTick - r.fFirstTick + 1 := by
  obtain ⟨fw, lw, ft, lt, nw, nt⟩ := r
  unfold wireParity SetROISize at h
  dsimp only at *
  split_ifs at h with h1 h2 h3
  · rw [Option.some.injEq] at h
    subst h
    dsimp only at *
    rcases hds with rfl | rfl
    · simp [Int.tmod_one] at h1
    · have e1 : ((lw + 1) - fw + 1).tmod 2 = ((lw + 1) - fw + 1) % 2 :=
        Int.tmod_eq_emod (by omega) (by omega)
      have e2 : nw.tmod 2 = nw % 2 := Int.tmod_eq_emod (by omega) (by omega)
      rw [e2] at h1
      refine ⟨by rw [e1]; omega, by omega, by omega, by omega, by omega, by omega,
        by omega, rfl, rfl, rfl⟩
  · rw [Option.some.injEq] at h
    subst h
    dsimp only at *
    rcases hds with rfl | rfl
    · simp [Int.tmod_one] at h2
    · have e1 : (lw - (fw - 1) + 1).tmod 2 = (lw - (fw - 1) + 1) % 2 :=
        Int.tmod_eq_emod (by omega) (by omega)
      have e2 : nw.tmod 2 = nw % 2 := Int.tmod_eq_emod (by omega) (by omega)
      rw [e2] at h2
      refine ⟨by rw [e1]; omega, by omega, by omega, by omega, by omega, by omega,
        by omega, rfl, rfl, rfl⟩
  · rw [Option.some.injEq] at h
    subst h
    dsimp only at *
    rcases hds with rfl | rfl
    · refine ⟨Int.tmod_one _, by omega, by omega, by omega, by omega, by omega,
        by omega, rfl, rfl, rfl⟩
    · have e1 : (lw - fw + 1).tmod 2 = (lw - fw + 1) % 2 :=
        Int.tmod_eq_emod (by omega) (by omega)
      have e2 : nw.tmod 2 = nw % 2 := Int.tmod_eq_emod (by omega) (by omega)
      rw [e2] at h3
      refine ⟨by rw [e1]; omega, by omega, by omega, by omega, by omega, by omega,
        by omega, rfl, rfl, rfl⟩

/-! ### Helper lemmas: the tick correction -/

theorem tickStart_bounds (ft0 m t0 : Int) (r : ROI)
    (hn : r.fNumberTicks = r.fLastTick - r.fFirstTick + 1)
    (hw : r.fNumberWires = r.fLastWire - r.fFirstWire + 1)
    (hm : 0 ≤ m) (ht0 : 0 ≤ t0) :
    (tickStart ft0 m t0 r).fFirstWire = r.fFirstWire ∧
    (tickStart ft0 m t0 r).fLastWire = r.fLastWire ∧
    (tickStart ft0 m t0 r).fNumberWires = r.fNumberWires ∧
    (tickStart ft0 m t0 r).fLastTick = r.fLastTick ∧
    ft0 ≤ (tickStart ft0 m t0 r).fFirstTick ∧
    (ft0 ≤ r.fFirstTick → (tickStart ft0 m t0 r).fFirstTick ≤ r.fFirstTick) ∧
    (tickStart ft0 m t0 r).fNumberTicks
      = (tickStart ft0 m t0 r).fLastTick - (tickStart ft0 m t0 r).fFirstTick + 1 ∧
    (tickStart ft0 m t0 r).fNumberTicks ≤ r.fNumberTicks + m + t0 := by
  obtain ⟨fw, lw, ft, lt, nw, nt⟩ := r
  unfold tickStart SetROISize
  dsimp only at *
  split_ifs <;> omega

theorem tickEnd_bounds (lt0 m t2 : Int) (r : ROI)
    (hn : r.fNumberTicks = r.fLastTick - r.fFirstTick + 1)
    (hw : r.fNumberWires = r.fLastWire - r.fFirstWire + 1) :
    (tickEnd lt0 m t2 r).fFirstWire = r.fFirstWire ∧
    (tickEnd lt0 m t2 r).fLastWire = r.fLastWire ∧
    (tickEnd lt0 m t2 r).fNumberWires = r.fNumberWires ∧
    (tickEnd lt0 m t2 r).fFirstTick = r.fFirstTick ∧
    (tickEnd lt0 m t2 r).fLastTick ≤ lt0 ∧
    (tickEnd lt0 m t2 r).fNumberTicks
      = (tickEnd lt0 m t2 r).fLastTick - (tickEnd lt0 m t2 r).fFirstTick + 1 ∧
    (tickEnd lt0 m t2 r).fNumberTicks ≤ r.fNumberTicks + m + t2 := by
  obtain ⟨fw, lw, ft, lt, nw, nt⟩ := r
  unfold tickEnd SetROISize
  dsimp only at *
  split_ifs <;> omega

theorem tickResidual_bounds (ft0 order : Int) (r : ROI) (ho : 0 < order)
    (hn : r.fNumberTicks = r.fLastTick - r.fFirstTick + 1)
    (hw : r.fNumberWires = r.fLastWire - r.fFirstWire + 1) :
    (tickResidual ft0 order r).fFirstWire = r.fFirstWire ∧
    (tickResidual ft0 order r).fLastWire = r.fLastWire ∧
    (tickResidual ft0 order r).fNumberWires = r.fNumberWires ∧
    (tickResidual ft0 order r).fLastTick = r.fLastTick ∧
    (ft0 ≤ r.fFirstTick → ft0 ≤ (tickResidual ft0 order r).fFirstTick) ∧
    (tickResidual ft0 order r).fNumberTicks
      = (tickResidual ft0 order r).fLastTick - (tickResidual ft0 order r).fFirstTick + 1 ∧
    (0 ≤ r.fNumberTicks →
      (tickResidual ft0 order r).fNumberTicks ≤ r.fNumberTicks + order - 1) ∧
    (tickResidual ft0 order r).fNumberTicks ≤ r.fNumberTicks + 2 * order - 1 := by
  obtain ⟨fw, lw, ft, lt, nw, nt⟩ := r
  have hg := padTo_bounds nt ho
  unfold tickResidual SetROISize
  dsimp only at *
  split_ifs with h1 h2 <;> dsimp only
  · refine ⟨rfl, rfl, by omega, rfl, fun hf => by omega, by omega, fun hnt => ?_, by omega⟩
    have h3 := padTo_bounds_of_nonneg ho hnt
    omega
  · refine ⟨rfl, rfl, by omega, rfl, fun hf => by omega, by omega, fun hnt => ?_, by omega⟩
    have h3 := padTo_bounds_of_nonneg ho hnt
    omega
  · exact ⟨rfl, rfl, rfl, rfl, fun hf => hf, by omega, fun hnt => by omega, by omega⟩

theorem tickPhase_ok {ds : Int} {r r' : ROI}
    (hds : ds = 1 ∨ ds = 2)
    (hb : 0 ≤ r.fFirstTick ∧ r.fFirstTick ≤ r.fLastTick)
    (hn : r.fNumberTicks = r.fLastTick - r.fFirstTick + 1)
    (hw : r.fNumberWires = r.fLastWire - r.fFirstWire + 1)
    (hds1 : ds = 1 → r.fNumberTicks ≤ 2403)
    (h : tickPhase ds r = some r') :
    r'.fNumberTicks.tmod (4 * ds) = 0 ∧
    (ds = 1 → r'.fNumberTicks ≤ 2492) ∧
    (ds = 2 → r'.fNumberTicks ≤ 4488) ∧
    r'.fFirstWire = r.fFirstWire ∧ r'.fLastWire = r.fLastWire ∧
    r'.fNumberWires = r.fNumberWires := by
  have hnt1 : 1 ≤ r.fNumberTicks := by omega
  unfold tickPhase at h
  dsimp only at h
  rcases hds with rfl | rfl
  · -- downsample = 1
    have h2403 := hds1 rfl
    have hp0 := padTo_bounds_of_nonneg (show (0:Int) < 4 by norm_num)
      (show (0:Int) ≤ r.fNumberTicks by omega)
    norm_num at h
    split_ifs at h with hc1 hc2
    · exact absurd hc1 (by omega)
    · rw [Option.some.injEq] at h
      subst h
      push_neg at hc2
      generalize hS1 : tickStart 0 40 (padTo 4 r.fNumberTicks) r = s1 at hc2 ⊢
      have E := tickStart_bounds 0 40 (padTo 4 r.fNumberTicks) r hn hw (by norm_num) hp0.1
      rw [hS1] at E
      obtain ⟨e1, e2, e3, e4, e5, e6, e7, e8⟩ := E
      have e6h := e6 hb.1
      have hp1 := padTo_bounds_of_nonneg (show (0:Int) < 4 by norm_num)
        (show (0:Int) ≤ s1.fNumberTicks by omega)
      generalize hS2 : tickEnd 4491 40 (padTo 4 s1.fNumberTicks) s1 = s2 at hc2 ⊢
      have F := tickEnd_bounds 4491 40 (padTo 4 s1.fNumberTicks) s1 e7 (by omega)
      rw [hS2] at F
      obtain ⟨f1, f2, f3, f4, f5, f6, f7⟩ := F
      generalize hS3 : tickResidual 0 4 s2 = s3 at hc2 ⊢
      have G := tickResidual_bounds 0 4 s2 (by norm_num) f6 (by omega)
      rw [hS3] at G
      obtain ⟨g1, g2, g3, g4, g5, g6, g7, g8⟩ := G
      have w1 : (SetROISize s3).fFirstWire = s3.fFirstWire := rfl
      have w2 : (SetROISize s3).fLastWire = s3.fLastWire := rfl
      have w3 : (SetROISize s3).fNumberWires = s3.fLastWire - s3.fFirstWire + 1 := rfl
      have w4 : (SetROISize s3).fNumberTicks = s3.fLastTick - s3.fFirstTick + 1 := rfl
      refine ⟨?_, fun _ => ?_, fun h2 => absurd h2 (by norm_num), by omega, by omega, by omega⟩
      · have h41 : (4:Int) * 1 = 4 := by norm_num
        rw [h41, w4, show s3.fLastTick - s3.fFirstTick + 1 = s3.fNumberTicks from by omega]
        exact hc2
      · rcases le_or_lt 0 s2.fNumberTicks with hcase | hcase
        · have := g7 hcase
          omega
        · omega
  · -- downsample = 2
    norm_num at h
    split_ifs at h with hc1 hc2
    · rw [Option.some.injEq] at h
      subst h
      refine ⟨?_, fun h1 => absurd h1 (by norm_num), fun _ => ?_, rfl, rfl, ?_⟩
      · exact (by decide : ((4489:Int) - 2 + 1).tmod (4 * 2) = 0)
      · exact (by decide : ((4489:Int) - 2 + 1) ≤ 4488)
      · show r.fLastWire - r.fFirstWire + 1 = r.fNumberWires
        omega
    · rw [Option.some.injEq] at h
      subst h
      push_neg at hc2
      have hp0 := padTo_bounds_of_nonneg (show (0:Int) < 8 by norm_num)
        (show (0:Int) ≤ r.fNumberTicks by omega)
      generalize hS1 : tickStart 2 80 (padTo 8 r.fNumberTicks) r = s1 at hc2 ⊢
      have E := tickStart_bounds 2 80 (padTo 8 r.fNumberTicks) r hn hw (by norm_num) hp0.1
      rw [hS1] at E
      obtain ⟨e1, e2, e3, e4, e5, e6, e7, e8⟩ := E
      generalize hS2 : tickEnd 4489 80 (padTo 8 s1.fNumberTicks) s1 = s2 at hc2 ⊢
      have F := tickEnd_bounds 4489 80 (padTo 8 s1.fNumberTicks) s1 e7 (by omega)
      rw [hS2] at F
      obtain ⟨f1, f2, f3, f4, f5, f6, f7⟩ := F
      generalize hS3 : tickResidual 2 8 s2 = s3 at hc2 ⊢
      have G := tickResidual_bounds 2 8 s2 (by norm_num) f6 (by omega)
      rw [hS3] at G
      obtain ⟨g1, g2, g3, g4, g5, g6, g7, g8⟩ := G
      have hft2 : 2 ≤ s3.fFirstTick := by
        have := g5 (by omega)
        omega
      have w1 : (SetROISize s3).fFirstWire = s3.fFirstWire := rfl
      have w2 : (SetROISize s3).fLastWire = s3.fLastWire := rfl
      have w3 : (SetROISize s3).fNumberWires = s3.fLastWire - s3.fFirstWire + 1 := rfl
      have w4 : (SetROISize s3).fNumberTicks = s3.fLastTick - s3.fFirstTick + 1 := rfl
      refine ⟨?_, fun h1 => absurd h1 (by norm_num), fun _ => by omega, by omega, by omega,
        by omega⟩
      have h42 : (4:Int) * 2 = 8 := by norm_num
      rw [h42, w4, show s3.fLastTick - s3.fFirstTick + 1 = s3.fNumberTicks from by omega]
      exact hc2

theorem wireMargin_bounds (fc lc m : Int) (r : ROI)
    (hwb : fc ≤ r.fFirstWire ∧ r.fFirstWire ≤ r.fLastWire ∧ r.fLastWire < lc)
    (hm : 0 ≤ m) :
    fc ≤ (wireMargin fc lc m r).fFirstWire ∧
    (wireMargin fc lc m r).fFirstWire ≤ (wireMargin fc lc m r).fLastWire ∧
    (wireMargin fc lc m r).fLastWire ≤ lc ∧
    (wireMargin fc lc m r).fNumberWires
      = (wireMargin fc lc m r).fLastWire - (wireMargin fc lc m r).fFirstWire + 1 ∧
    (wireMargin fc lc m r).fNumberWires ≤ (r.fLastWire - r.fFirstWire + 1) + 2 * m ∧
    (wireMargin fc lc m r).fNumberWires ≤ lc - fc + 1 ∧
    (wireMargin fc lc m r).fFirstTick = r.fFirstTick ∧
    (wireMargin fc lc m r).fLastTick = r.fLastTick ∧
    (wireMargin fc lc m r).fNumberTicks = r.fLastTick - r.fFirstTick + 1 := by
  obtain ⟨fw, lw, ft, lt, nw, nt⟩ := r
  unfold wireMargin SetROISize
  dsimp only at *
  split_ifs <;> omega

theorem roiCorrect_ok {fc lc : Int} {r1 : ROI} {ds : Int} {r : ROI}
    (hwb : fc ≤ r1.fFirstWire ∧ r1.fFirstWire ≤ r1.fLastWire ∧ r1.fLastWire < lc)
    (htb : 0 ≤ r1.fFirstTick ∧ r1.fFirstTick ≤ r1.fLastTick)
    (hn : r1.fNumberWires = r1.fLastWire - r1.fFirstWire + 1)
    (hm : r1.fNumberTicks = r1.fLastTick - r1.fFirstTick + 1)
    (hlc : lc - fc ≤ 959)
    (h : roiCorrect fc lc r1 = some (ds, r)) :
    (ds = 1 ∨ ds = 2) ∧
    r.fNumberWires.tmod ds = 0 ∧ r.fNumberTicks.tmod (4 * ds) = 0 ∧
    r.fNumberWires.tdiv ds ≤ 620 ∧ r.fNumberTicks.tdiv (4 * ds) ≤ 623 := by
  unfold roiCorrect at h
  dsimp only at h
  split_ifs at h with hdec
  · -- downsample = 2
    generalize hR4 : wireMargin fc lc (10 * 2) r1 = r4 at h
    have M := wireMargin_bounds fc lc (10 * 2) r1 hwb (by norm_num)
    rw [hR4] at M
    obtain ⟨m1, m2, m3, m4, m5, m6, m7, m8, m9⟩ := M
    cases hwp : wireParity fc lc 2 r4 with
    | none =>
      rw [hwp] at h
      dsimp only at h
      exact Option.noConfusion h
    | some r5 =>
      rw [hwp] at h
      dsimp only at h
      have W := wireParity_ok (Or.inr rfl) ⟨m1, m2, m3⟩ m4 hwp
      obtain ⟨w1, w2, w3, w4, w5, w6, w7, w8, w9, w10⟩ := W
      cases htp : tickPhase 2 r5 with
      | none =>
        rw [htp] at h
        dsimp only at h
        exact Option.noConfusion h
      | some r6 =>
        rw [htp] at h
        dsimp only at h
        rw [Option.some.injEq, Prod.mk.injEq] at h
        obtain ⟨hds2, hr6⟩ := h
        subst hds2
        subst hr6
        have T := tickPhase_ok (Or.inr rfl) (by omega) (by omega) w7
          (fun hh => absurd hh (by norm_num)) htp
        obtain ⟨t1, t2, t3, t4, t5, t6⟩ := T
        refine ⟨Or.inr rfl, ?_, t1, ?_, ?_⟩
        · rw [t6]
          exact w1
        · have hb960 : r6.fNumberWires ≤ 960 := by omega
          have hdv := tdiv_le_of_le hb960 (by norm_num : (0:Int) ≤ 960) (by norm_num : (0:Int) < 2)
          have h960 : (960:Int).tdiv 2 = 480 := by decide
          omega
        · have h42 : (4:Int) * 2 = 8 := by norm_num
          rw [h42]
          have hb4488 : r6.fNumberTicks ≤ 4488 := t3 rfl
          have hdv := tdiv_le_of_le hb4488 (by norm_num : (0:Int) ≤ 4488) (by norm_num : (0:Int) < 8)
          have h4488 : (4488:Int).tdiv 8 = 561 := by decide
          omega
  · -- downsample = 1
    push_neg at hdec
    have hnt0 : 0 ≤ r1.fNumberTicks := by omega
    have he : r1.fNumberTicks.tdiv 4 = r1.fNumberTicks / 4 :=
      Int.tdiv_eq_ediv hnt0 (by norm_num)
    have h2403 : r1.fNumberTicks ≤ 2403 := by
      have := hdec.2
      omega
    generalize hR4 : wireMargin fc lc (10 * 1) r1 = r4 at h
    have M := wireMargin_bounds fc lc (10 * 1) r1 hwb (by norm_num)
    rw [hR4] at M
    obtain ⟨m1, m2, m3, m4, m5, m6, m7, m8, m9⟩ := M
    cases hwp : wireParity fc lc 1 r4 with
    | none =>
      rw [hwp] at h
      dsimp only at h
      exact Option.noConfusion h
    | some r5 =>
      rw [hwp] at h
      dsimp only at h
      have W := wireParity_ok (Or.inl rfl) ⟨m1, m2, m3⟩ m4 hwp
      obtain ⟨w1, w2, w3, w4, w5, w6, w7, w8, w9, w10⟩ := W
      cases htp : tickPhase 1 r5 with
      | none =>
        rw [htp] at h
        dsimp only at h
        exact Option.noConfusion h
      | some r6 =>
        rw [htp] at h
        dsimp only at h
        rw [Option.some.injEq, Prod.mk.injEq] at h
        obtain ⟨hds1, hr6⟩ := h
        subst hds1
        subst hr6
        have T := tickPhase_ok (Or.inl rfl) (by omega) (by omega) w7
          (fun _ => by omega) htp
        obtain ⟨t1, t2, t3, t4, t5, t6⟩ := T
        refine ⟨Or.inl rfl, ?_, t1, ?_, ?_⟩
        · rw [t6]
          exact w1
        · rw [Int.tdiv_one]
          have hw3 := w3 rfl
          omega
        · have h41 : (4:Int) * 1 = 4 := by norm_num
          rw [h41]
          have hb2492 : r6.fNumberTicks ≤ 2492 := t2 rfl
          have hdv := tdiv_le_of_le hb2492 (by norm_num : (0:Int) ≤ 2492) (by norm_num : (0:Int) < 4)
          have h2492 : (2492:Int).tdiv 4 = 623 := by decide
          omega

theorem channel_range_bounds (p : Fin 3) :
    0 < fLastChannel p - fFirstChannel p ∧ fLastChannel p - fFirstChannel p ≤ 959 := by
  fin_cases p <;> decide

theorem findROI_ok_facts {wm : WireMap} {cut : ℚ} {apa : Int} {p : Fin 3} {ds : Int} {r : ROI}
    (h : (FindROI wm cut apa p).1 = .ok ds r) :
    (ds = 1 ∨ ds = 2) ∧
    r.fNumberWires.tmod ds = 0 ∧ r.fNumberTicks.tmod (4 * ds) = 0 ∧
    r.fNumberWires.tdiv ds ≤ 620 ∧ r.fNumberTicks.tdiv (4 * ds) ≤ 623 := by
  unfold FindROI at h
  dsimp only at h
  obtain ⟨hinv, -⟩ :=
    scanPhase_spec wm cut (2560 * apa + fFirstChannel p) (2560 * apa + fLastChannel p)
  split_ifs at h with hsent
  case _ =>
    push_neg at hsent
    obtain ⟨hs1, hs2, hs3, hs4⟩ := hsent
    cases hrc : roiCorrect (2560 * apa + fFirstChannel p) (2560 * apa + fLastChannel p)
        (SetROISize (scanPhase wm cut (2560 * apa + fFirstChannel p)
          (2560 * apa + fLastChannel p)).1) with
    | none =>
      rw [hrc] at h
      dsimp only at h
      exact FindROIResult.noConfusion h
    | some dr =>
      rw [hrc] at h
      dsimp only at h
      obtain ⟨hd, hr⟩ := FindROIResult.ok.inj h
      subst hd
      subst hr
      obtain ⟨hw0, ht0⟩ := hinv
      have hwires : 2560 * apa + fFirstChannel p
            ≤ (scanPhase wm cut (2560 * apa + fFirstChannel p)
              (2560 * apa + fLastChannel p)).1.fFirstWire ∧
          (scanPhase wm cut (2560 * apa + fFirstChannel p)
              (2560 * apa + fLastChannel p)).1.fFirstWire
            ≤ (scanPhase wm cut (2560 * apa + fFirstChannel p)
              (2560 * apa + fLastChannel p)).1.fLastWire ∧
          (scanPhase wm cut (2560 * apa + fFirstChannel p)
              (2560 * apa + fLastChannel p)).1.fLastWire
            < 2560 * apa + fLastChannel p := by
        rcases hw0 with h0 | h0
        · exact absurd h0.1 hs1
        · exact h0
      have hticks : 0 ≤ (scanPhase wm cut (2560 * apa + fFirstChannel p)
              (2560 * apa + fLastChannel p)).1.fFirstTick ∧
          (scanPhase wm cut (2560 * apa + fFirstChannel p)
              (2560 * apa + fLastChannel p)).1.fFirstTick
            ≤ (scanPhase wm cut (2560 * apa + fFirstChannel p)
              (2560 * apa + fLastChannel p)).1.fLastTick := by
        rcases ht0 with h0 | h0
        · exact absurd h0.1 hs3
        · exact h0
      have hchan := channel_range_bounds p
      exact roiCorrect_ok ⟨by exact hwires.1, by exact hwires.2.1, by exact hwires.2.2⟩
        ⟨by exact hticks.1, by exact hticks.2⟩ rfl rfl (by omega) hrc

/-! ### Helper lemmas: APA selection -/

theorem bestLoop_spec (wm : WireMap) (mt : ℕ) :
    ∀ (l : List Int) (b : Int) (v : ℚ), b ≠ -1 → (∀ x ∈ l, (0:Int) ≤ x) →
      (bestLoop wm mt l b v = b ∧ ∀ a ∈ l, sumADC wm mt a ≤ v) ∨
      (∃ pre suf, l = pre ++ bestLoop wm mt l b v :: suf ∧
        v < sumADC wm mt (bestLoop wm mt l b v) ∧
        (∀ a ∈ pre, sumADC wm mt a < sumADC wm mt (bestLoop wm mt l b v)) ∧
        (∀ a ∈ suf, sumADC wm mt a ≤ sumADC wm mt (bestLoop wm mt l b v))) := by
  intro l
  induction l with
  | nil =>
    intro b v hb hpos
    left
    exact ⟨rfl, fun x hx => absurd hx (List.not_mem_nil x)⟩
  | cons a rest ih =>
    intro b v hb hpos
    have hrest : ∀ x ∈ rest, (0:Int) ≤ x := fun x hx => hpos x (List.mem_cons_of_mem a hx)
    have ha : a ≠ -1 := by
      have := hpos a (List.mem_cons_self a rest)
      omega
    rw [bestLoop]
    split_ifs with hcond
    · have hgt : v < sumADC wm mt a := by
        rcases hcond with hgt | habs
        · exact hgt
        · exact absurd habs hb
      rcases ih a (sumADC wm mt a) ha hrest with ⟨heq, hle⟩ | ⟨pre, suf, hdec, hlt, hpre, hsuf⟩
      · right
        refine ⟨[], rest, ?_, ?_, fun x hx => absurd hx (List.not_mem_nil x), ?_⟩
        · rw [heq, List.nil_append]
        · rw [heq]
          exact hgt
        · rw [heq]
          exact hle
      · right
        refine ⟨a :: pre, suf, ?_, lt_trans hgt hlt, ?_, hsuf⟩
        · conv_lhs => rw [hdec]
          rw [List.cons_append]
        · intro x hx
          rcases List.mem_cons.mp hx with rfl | hx'
          · exact hlt
          · exact hpre x hx'
    · have hle : sumADC wm mt a ≤ v := by
        push_neg at hcond
        exact hcond.1
      rcases ih b v hb hrest with ⟨heq, hler⟩ | ⟨pre, suf, hdec, hlt, hpre, hsuf⟩
      · left
        refine ⟨heq, ?_⟩
        intro x hx
        rcases List.mem_cons.mp hx with rfl | hx'
        · exact hle
        · exact hler x hx'
      · right
        refine ⟨a :: pre, suf, ?_, hlt, ?_, hsuf⟩
        · conv_lhs => rw [hdec]
          rw [List.cons_append]
        · intro x hx
          rcases List.mem_cons.mp hx with rfl | hx'
          · exact lt_of_le_of_lt hle hlt
          · exact hpre x hx'

theorem findBestAPA_spec {wm : WireMap} {mt : ℕ} {apas : List Int}
    (hne : apas ≠ []) (hpos : ∀ x ∈ apas, (0:Int) ≤ x) :
    ∃ pre suf, apas = pre ++ FindBestAPA wm mt apas :: suf ∧
      (∀ a ∈ pre, sumADC wm mt a < sumADC wm mt (FindBestAPA wm mt apas)) ∧
      (∀ a ∈ apas, sumADC wm mt a ≤ sumADC wm mt (FindBestAPA wm mt apas)) := by
  cases apas with
  | nil => exact absurd rfl hne
  | cons a rest =>
    have ha : a ≠ -1 := by
      have := hpos a (List.mem_cons_self a rest)
      omega
    have hrest : ∀ x ∈ rest, (0:Int) ≤ x := fun x hx => hpos x (List.mem_cons_of_mem a hx)
    unfold FindBestAPA
    rw [bestLoop]
    rw [if_pos (Or.inr rfl)]
    rcases bestLoop_spec wm mt rest a (sumADC wm mt a) ha hrest with
      ⟨heq, hle⟩ | ⟨pre, suf, hdec, hlt, hpre, hsuf⟩
    · refine ⟨[], rest, ?_, fun x hx => absurd hx (List.not_mem_nil x), ?_⟩
      · rw [heq, List.nil_append]
      intro x hx
      rw [heq]
      rcases List.mem_cons.mp hx with rfl | hx'
      · exact le_refl _
      · exact hle x hx'
    · refine ⟨a :: pre, suf, ?_, ?_, ?_⟩
      · conv_lhs => rw [hdec]
        rw [List.cons_append]
      · intro x hx
        rcases List.mem_cons.mp hx with rfl | hx'
        · exact hlt
        · exact hpre x hx'
      · intro x hx
        rcases List.mem_cons.mp hx with rfl | hx'
        · exact le_of_lt hlt
        · rw [hdec] at hx'
          rcases List.mem_append.mp hx' with hx2 | hx2
          · exact le_of_lt (hpre x hx2)
          · rcases List.mem_cons.mp hx2 with rfl | hx3
            · exact le_refl _
            · exact hsuf x hx3


/-! ### Helper lemmas: evaluating the bounding-box scan on sparse wire maps -/

theorem foldl_scanStep_absent (cut : ℚ) (firstC : Int) :
    ∀ (k s : ℕ) (acc : ROI × WireMap),
      (∀ c : Int, firstC + (s : Int) ≤ c → c < firstC + (s : Int) + (k : Int) →
        wmContains acc.2 c = false) →
      (List.range' s k).foldl (scanStep cut firstC) acc = acc := by
  intro k
  induction k with
  | zero =>
    intro s acc _
    rfl
  | succ n ih =>
    intro s acc h
    rw [List.range'_succ, List.foldl_cons]
    have hstep : scanStep cut firstC acc s = acc := by
      unfold scanStep
      dsimp only
      rw [h (firstC + (s : Int)) (by omega) (by omega)]
      simp
    rw [hstep]
    exact ih (s + 1) acc (fun c h1 h2 => h c (by push_cast at h1 ⊢; omega)
      (by push_cast at h1 h2 ⊢; omega))

theorem scanEval_single_plane0 :
    scanPhase [((0:Int), [(1:ℚ)])] 0 (2560 * 0 + fFirstChannel 0) (2560 * 0 + fLastChannel 0)
      = (⟨0, 0, 0, 0, -1, -1⟩, [((0:Int), [(1:ℚ)])]) := by
  rw [show (2560 * 0 + fFirstChannel 0 : Int) = 0 from by decide,
    show (2560 * 0 + fLastChannel 0 : Int) = 799 from by decide]
  unfold scanPhase
  have hsplit : List.range' 0 799 = List.range' 0 1 ++ List.range' 1 798 :=
    (List.range'_append_1 0 1 798).symm
  rw [show ((799:Int) - 0).toNat = 799 from rfl, List.range_eq_range', hsplit,
    List.foldl_append,
    show (List.range' 0 1).foldl (scanStep 0 0) (ResetROI, [((0:Int), [(1:ℚ)])])
      = (⟨0, 0, 0, 0, -1, -1⟩, [((0:Int), [(1:ℚ)])]) from by decide]
  refine foldl_scanStep_absent 0 0 798 1 _ ?_
  intro c h1 h2
  have e0 : (c == (0:Int)) = false := by
    simp only [beq_eq_false_iff_ne, ne_eq]
    omega
  simp [wmContains, List.lookup, e0]

theorem scanEval_single_plane1 :
    scanPhase [((0:Int), [(1:ℚ)])] 0 (2560 * 0 + fFirstChannel 1) (2560 * 0 + fLastChannel 1)
      = (ResetROI, [((0:Int), [(1:ℚ)])]) := by
  rw [show (2560 * 0 + fFirstChannel 1 : Int) = 800 from by decide,
    show (2560 * 0 + fLastChannel 1 : Int) = 1599 from by decide]
  unfold scanPhase
  rw [show ((1599:Int) - 800).toNat = 799 from rfl, List.range_eq_range']
  refine foldl_scanStep_absent 0 800 799 0 _ ?_
  intro c h1 h2
  have e0 : (c == (0:Int)) = false := by
    simp only [beq_eq_false_iff_ne, ne_eq]
    omega
  simp [wmContains, List.lookup, e0]

theorem scanEval_lastChannel :
    scanPhase [((799:Int), [(10:ℚ)])] 0 (2560 * 0 + fFirstChannel 0) (2560 * 0 + fLastChannel 0)
      = (ResetROI, [((799:Int), [(10:ℚ)])]) := by
  rw [show (2560 * 0 + fFirstChannel 0 : Int) = 0 from by decide,
    show (2560 * 0 + fLastChannel 0 : Int) = 799 from by decide]
  unfold scanPhase
  rw [show ((799:Int) - 0).toNat = 799 from rfl, List.range_eq_range']
  refine foldl_scanStep_absent 0 0 799 0 _ ?_
  intro c h1 h2
  have e0 : (c == (799:Int)) = false := by
    simp only [beq_eq_false_iff_ne, ne_eq]
    omega
  simp [wmContains, List.lookup, e0]

theorem scanEval_threePlanes_plane0 :
    scanPhase [((0:Int), [(1:ℚ)]), (800, [1]), (1600, [1])] 0
        (2560 * 0 + fFirstChannel 0) (2560 * 0 + fLastChannel 0)
      = (⟨0, 0, 0, 0, -1, -1⟩, [((0:Int), [(1:ℚ)]), (800, [1]), (1600, [1])]) := by
  rw [show (2560 * 0 + fFirstChannel 0 : Int) = 0 from by decide,
    show (2560 * 0 + fLastChannel 0 : Int) = 799 from by decide]
  unfold scanPhase
  have hsplit : List.range' 0 799 = List.range' 0 1 ++ List.range' 1 798 :=
    (List.range'_append_1 0 1 798).symm
  rw [show ((799:Int) - 0).toNat = 799 from rfl, List.range_eq_range', hsplit,
    List.foldl_append,
    show (List.range' 0 1).foldl (scanStep 0 0)
        (ResetROI, [((0:Int), [(1:ℚ)]), (800, [1]), (1600, [1])])
      = (⟨0, 0, 0, 0, -1, -1⟩, [((0:Int), [(1:ℚ)]), (800, [1]), (1600, [1])]) from by decide]
  refine foldl_scanStep_absent 0 0 798 1 _ ?_
  intro c h1 h2
  have e0 : (c == (0:Int)) = false := by
    simp only [beq_eq_false_iff_ne, ne_eq]
    omega
  have e8 : (c == (800:Int)) = false := by
    simp only [beq_eq_false_iff_ne, ne_eq]
    omega
  have e16 : (c == (1600:Int)) = false := by
    simp only [beq_eq_false_iff_ne, ne_eq]
    omega
  simp [wmContains, List.lookup, e0, e8, e16]

theorem scanEval_wideEvent_plane0 :
    scanPhase [((0:Int), [(5:ℚ)]), (599, [5]), (800, [5]), (1600, [5])] 0
        (2560 * 0 + fFirstChannel 0) (2560 * 0 + fLastChannel 0)
      = (⟨0, 599, 0, 0, -1, -1⟩,
        [((0:Int), [(5:ℚ)]), (599, [5]), (800, [5]), (1600, [5])]) := by
  rw [show (2560 * 0 + fFirstChannel 0 : Int) = 0 from by decide,
    show (2560 * 0 + fLastChannel 0 : Int) = 799 from by decide]
  unfold scanPhase
  have hs1 : List.range' 0 799 = List.range' 0 1 ++ List.range' 1 798 :=
    (List.range'_append_1 0 1 798).symm
  have hs2 : List.range' 1 798 = List.range' 1 598 ++ List.range' 599 200 :=
    (List.range'_append_1 1 598 200).symm
  have hs3 : List.range' 599 200 = List.range' 599 1 ++ List.range' 600 199 :=
    (List.range'_append_1 599 1 199).symm
  rw [show ((799:Int) - 0).toNat = 799 from rfl, List.range_eq_range', hs1, hs2, hs3,
    List.foldl_append, List.foldl_append, List.foldl_append,
    show (List.range' 0 1).foldl (scanStep 0 0)
        (ResetROI, [((0:Int), [(5:ℚ)]), (599, [5]), (800, [5]), (1600, [5])])
      = (⟨0, 0, 0, 0, -1, -1⟩, [((0:Int), [(5:ℚ)]), (599, [5]), (800, [5]), (1600, [5])])
      from by decide]
  rw [foldl_scanStep_absent 0 0 598 1
    ((⟨0, 0, 0, 0, -1, -1⟩ : ROI), [((0:Int), [(5:ℚ)]), (599, [5]), (800, [5]), (1600, [5])])
    (by
      intro c h1 h2
      have e1 : (c == (0:Int)) = false := by
        simp only [beq_eq_false_iff_ne, ne_eq]
        omega
      have e2 : (c == (599:Int)) = false := by
        simp only [beq_eq_false_iff_ne, ne_eq]
        omega
      have e3 : (c == (800:Int)) = false := by
        simp only [beq_eq_false_iff_ne, ne_eq]
        omega
      have e4 : (c == (1600:Int)) = false := by
        simp only [beq_eq_false_iff_ne, ne_eq]
        omega
      simp [wmContains, List.lookup, e1, e2, e3, e4])]
  rw [show (List.range' 599 1).foldl (scanStep 0 0)
      ((⟨0, 0, 0, 0, -1, -1⟩ : ROI), [((0:Int), [(5:ℚ)]), (599, [5]), (800, [5]), (1600, [5])])
      = (⟨0, 599, 0, 0, -1, -1⟩, [((0:Int), [(5:ℚ)]), (599, [5]), (800, [5]), (1600, [5])])
      from by decide]
  refine foldl_scanStep_absent 0 0 199 600 _ ?_
  intro c h1 h2
  have e1 : (c == (0:Int)) = false := by
    simp only [beq_eq_false_iff_ne, ne_eq]
    omega
  have e2 : (c == (599:Int)) = false := by
    simp only [beq_eq_false_iff_ne, ne_eq]
    omega
  have e3 : (c == (800:Int)) = false := by
    simp only [beq_eq_false_iff_ne, ne_eq]
    omega
  have e4 : (c == (1600:Int)) = false := by
    simp only [beq_eq_false_iff_ne, ne_eq]
    omega
  simp [wmContains, List.lookup, e1, e2, e3, e4]

theorem scanEval_wideEvent_plane1 :
    scanPhase [((0:Int), [(5:ℚ)]), (599, [5]), (800, [5]), (1600, [5])] 0
        (2560 * 0 + fFirstChannel 1) (2560 * 0 + fLastChannel 1)
      = (⟨800, 800, 0, 0, -1, -1⟩,
        [((0:Int), [(5:ℚ)]), (599, [5]), (800, [5]), (1600, [5])]) := by
  rw [show (2560 * 0 + fFirstChannel 1 : Int) = 800 from by decide,
    show (2560 * 0 + fLastChannel 1 : Int) = 1599 from by decide]
  unfold scanPhase
  have hs1 : List.range' 0 799 = List.range' 0 1 ++ List.range' 1 798 :=
    (List.range'_append_1 0 1 798).symm
  rw [show ((1599:Int) - 800).toNat = 799 from rfl, List.range_eq_range', hs1,
    List.foldl_append,
    show (List.range' 0 1).foldl (scanStep 0 800)
        (ResetROI, [((0:Int), [(5:ℚ)]), (599, [5]), (800, [5]), (1600, [5])])
      = (⟨800, 800, 0, 0, -1, -1⟩, [((0:Int), [(5:ℚ)]), (599, [5]), (800, [5]), (1600, [5])])
      from by decide]
  refine foldl_scanStep_absent 0 800 798 1 _ ?_
  intro c h1 h2
  have e1 : (c == (0:Int)) = false := by
    simp only [beq_eq_false_iff_ne, ne_eq]
    omega
  have e2 : (c == (599:Int)) = false := by
    simp only [beq_eq_false_iff_ne, ne_eq]
    omega
  have e3 : (c == (800:Int)) = false := by
    simp only [beq_eq_false_iff_ne, ne_eq]
    omega
  have e4 : (c == (1600:Int)) = false := by
    simp only [beq_eq_false_iff_ne, ne_eq]
    omega
  simp [wmContains, List.lookup, e1, e2, e3, e4]

theorem scanEval_wideEvent_plane2 :
    scanPhase [((0:Int), [(5:ℚ)]), (599, [5]), (800, [5]), (1600, [5])] 0
        (2560 * 0 + fFirstChannel 2) (2560 * 0 + fLastChannel 2)
      = (⟨1600, 1600, 0, 0, -1, -1⟩,
        [((0:Int), [(5:ℚ)]), (599, [5]), (800, [5]), (1600, [5])]) := by
  rw [show (2560 * 0 + fFirstChannel 2 : Int) = 1600 from by decide,
    show (2560 * 0 + fLastChannel 2 : Int) = 2559 from by decide]
  unfold scanPhase
  have hs1 : List.range' 0 959 = List.range' 0 1 ++ List.range' 1 958 :=
    (List.range'_append_1 0 1 958).symm
  rw [show ((2559:Int) - 1600).toNat = 959 from rfl, List.range_eq_range', hs1,
    List.foldl_append,
    show (List.range' 0 1).foldl (scanStep 0 1600)
        (ResetROI, [((0:Int), [(5:ℚ)]), (599, [5]), (800, [5]), (1600, [5])])
      = (⟨1600, 1600, 0, 0, -1, -1⟩, [((0:Int), [(5:ℚ)]), (599, [5]), (800, [5]), (1600, [5])])
      from by decide]
  refine foldl_scanStep_absent 0 1600 958 1 _ ?_
  intro c h1 h2
  have e1 : (c == (0:Int)) = false := by
    simp only [beq_eq_false_iff_ne, ne_eq]
    omega
  have e2 : (c == (599:Int)) = false := by
    simp only [beq_eq_false_iff_ne, ne_eq]
    omega
  have e3 : (c == (800:Int)) = false := by
    simp only [beq_eq_false_iff_ne, ne_eq]
    omega
  have e4 : (c == (1600:Int)) = false := by
    simp only [beq_eq_false_iff_ne, ne_eq]
    omega
  simp [wmContains, List.lookup, e1, e2, e3, e4]

set_option maxRecDepth 2000 in
theorem findROI_eval_single_plane0 :
    (FindROI [((0:Int), [(1:ℚ)])] 0 0 0).1 = .ok 1 ⟨0, 10, 0, 43, 11, 44⟩ := by
  unfold FindROI
  dsimp only
  rw [scanEval_single_plane0]
  decide

set_option maxRecDepth 2000 in
theorem findROI_eval_single_plane1 :
    (FindROI [((0:Int), [(1:ℚ)])] 0 0 1).1 = .noROI := by
  unfold FindROI
  dsimp only
  rw [scanEval_single_plane1]
  decide

set_option maxRecDepth 2000 in
theorem findROI_eval_lastChannel :
    (FindROI [((799:Int), [(10:ℚ)])] 0 0 0).1 = .noROI := by
  unfold FindROI
  dsimp only
  rw [scanEval_lastChannel]
  decide

set_option maxRecDepth 2000 in
theorem findROI_eval_threePlanes_plane0 :
    (FindROI [((0:Int), [(1:ℚ)]), (800, [1]), (1600, [1])] 0 0 0).1
      = .ok 1 ⟨0, 10, 0, 43, 11, 44⟩ := by
  unfold FindROI
  dsimp only
  rw [scanEval_threePlanes_plane0]
  decide

set_option maxRecDepth 2000 in
theorem findROI_eval_wideEvent_plane0 :
    (FindROI [((0:Int), [(5:ℚ)]), (599, [5]), (800, [5]), (1600, [5])] 0 0 0).1
      = .ok 1 ⟨0, 609, 0, 43, 610, 44⟩ := by
  unfold FindROI
  dsimp only
  rw [scanEval_wideEvent_plane0]
  decide

set_option maxRecDepth 2000 in
theorem findROI_eval_wideEvent_plane1 :
    (FindROI [((0:Int), [(5:ℚ)]), (599, [5]), (800, [5]), (1600, [5])] 0 0 1).1
      = .ok 1 ⟨800, 810, 0, 43, 11, 44⟩ := by
  unfold FindROI
  dsimp only
  rw [scanEval_wideEvent_plane1]
  decide

set_option maxRecDepth 2000 in
theorem findROI_eval_wideEvent_plane2 :
    (FindROI [((0:Int), [(5:ℚ)]), (599, [5]), (800, [5]), (1600, [5])] 0 0 2).1
      = .ok 1 ⟨1600, 1610, 0, 43, 11, 44⟩ := by
  unfold FindROI
  dsimp only
  rw [scanEval_wideEvent_plane2]
  decide

theorem findROI_eval_pipeline_plane1 :
    (FindROI (fillWireMap [((0:Int), [(1:ℚ)])]).1 0
      (FindBestAPA (fillWireMap [((0:Int), [(1:ℚ)])]).1 0
        (fillWireMap [((0:Int), [(1:ℚ)])]).2) 1).1 = .noROI := by
  have hf : fillWireMap [((0:Int), [(1:ℚ)])] = ([((0:Int), [(1:ℚ)])], [0]) := by decide
  rw [hf]
  dsimp only
  have hb : FindBestAPA [((0:Int), [(1:ℚ)])] 0 [0] = 0 := by
    unfold FindBestAPA
    rw [bestLoop, if_pos (Or.inr rfl)]
    rfl
  rw [hb]
  exact findROI_eval_single_plane1

/-! ### Claim theorems -/

/-- C1 (counterexample): on the event whose wire map holds above-cut samples on channels 0,
599, 800 and 1600 with ADC cut 0, all three `FindROI` calls for APA 0 succeed, yet on
plane 0 the compressed width is `fNumberWires / downsample = 610 / 1 = 610 > 600`: the
claimed 600 bound on the compressed dimensions is false. -/
theorem c1_counterexample :
    (FindROI [((0:Int), [(5:ℚ)]), (599, [5]), (800, [5]), (1600, [5])] 0 0 0).1
      = .ok 1 ⟨0, 609, 0, 43, 610, 44⟩ ∧
    (FindROI [((0:Int), [(5:ℚ)]), (599, [5]), (800, [5]), (1600, [5])] 0 0 1).1
      = .ok 1 ⟨800, 810, 0, 43, 11, 44⟩ ∧
    (FindROI [((0:Int), [(5:ℚ)]), (599, [5]), (800, [5]), (1600, [5])] 0 0 2).1
      = .ok 1 ⟨1600, 1610, 0, 43, 11, 44⟩ ∧
    ¬ ((610:Int).tdiv 1 ≤ 600) :=
  ⟨findROI_eval_wideEvent_plane0, findROI_eval_wideEvent_plane1,
    findROI_eval_wideEvent_plane2, by decide⟩

/-- C1 (amended): whenever `FindROI` returns a downsample value with its ROI, the compressed
image dimensions satisfy `fNumberWires/downsample ≤ 620` and
`fNumberTicks/(4·downsample) ≤ 623`, for every wire-map content and ADC-cut configuration
(the bound 600 claimed by the spec does not hold; width 610 is attained by the
counterexample, and width 620 is attainable). -/
theorem c1_compressed_dims_bounded (wm : WireMap) (cut : ℚ) (apa : Int) (p : Fin 3)
    (ds : Int) (r : ROI) (h : (FindROI wm cut apa p).1 = .ok ds r) :
    r.fNumberWires.tdiv ds ≤ 620 ∧ r.fNumberTicks.tdiv (4 * ds) ≤ 623 :=
  ⟨(findROI_ok_facts h).2.2.2.1, (findROI_ok_facts h).2.2.2.2⟩

/-- Witness for C1 (amended) at a concrete successful event. -/
theorem c1_compressed_dims_bounded_witness :
    (11:Int).tdiv 1 ≤ 620 ∧ (44:Int).tdiv 4 ≤ 623 :=
  c1_compressed_dims_bounded [((0:Int), [(1:ℚ)])] 0 0 0 1 ⟨0, 10, 0, 43, 11, 44⟩
    findROI_eval_single_plane0

/-- C2: whenever `FindROI` returns a non-failure result (a downsample value rather than the
`-1` sentinel, and without reaching a fatal exit branch), the post-correction counts satisfy
`fNumberWires mod downsample = 0` and `fNumberTicks mod (4·downsample) = 0` (C++ truncated
remainder). -/
theorem c2_counts_divisible (wm : WireMap) (cut : ℚ) (apa : Int) (p : Fin 3)
    (ds : Int) (r : ROI) (h : (FindROI wm cut apa p).1 = .ok ds r) :
    r.fNumberWires.tmod ds = 0 ∧ r.fNumberTicks.tmod (4 * ds) = 0 :=
  ⟨(findROI_ok_facts h).2.1, (findROI_ok_facts h).2.2.1⟩

/-- Witness for C2 at a concrete successful event. -/
theorem c2_counts_divisible_witness :
    (11:Int).tmod 1 = 0 ∧ (44:Int).tmod 4 = 0 :=
  c2_counts_divisible [((0:Int), [(1:ℚ)])] 0 0 0 1 ⟨0, 10, 0, 43, 11, 44⟩
    findROI_eval_single_plane0

/-- C3 (code bug): the bounding-box scan loop `for (channel = first_channel;
channel < last_channel; ++channel)` never visits the range's last channel.  With an
above-cut sample only on channel 799 — the last channel of plane 0 in APA 0 — `FindROI`
returns the `-1` sentinel instead of updating the tracked bounds, contradicting the claim
that every channel through `last_channel` inclusive is scanned. -/
theorem c3_last_channel_never_scanned :
    List.lookup (799:Int) [((799:Int), [(10:ℚ)])] = some [10] ∧
    ((10:ℚ) > 0) ∧
    (FindROI [((799:Int), [(10:ℚ)])] 0 0 0).1 = .noROI :=
  ⟨by decide, by decide, findROI_eval_lastChannel⟩

/-- C4: for every non-empty candidate list of APA indices, `FindBestAPA` returns the first
candidate in iteration order whose summed amplitude over all three planes and ticks in
`[0, maxTick)` is maximal: every candidate's sum is at most the returned candidate's sum,
and every candidate strictly before the returned one has a strictly smaller sum (the running
best is updated only on strict improvement or on the very first candidate). -/
theorem c4_first_strict_argmax (wm : WireMap) (maxTick : ℕ) (apas : List Int)
    (hne : apas ≠ []) (hpos : ∀ x ∈ apas, (0:Int) ≤ x) :
    ∃ pre suf, apas = pre ++ FindBestAPA wm maxTick apas :: suf ∧
      (∀ a ∈ pre, sumADC wm maxTick a < sumADC wm maxTick (FindBestAPA wm maxTick apas)) ∧
      (∀ a ∈ apas, sumADC wm maxTick a ≤ sumADC wm maxTick (FindBestAPA wm maxTick apas)) :=
  findBestAPA_spec hne hpos

/-- Witness for C4 at a concrete candidate list. -/
theorem c4_first_strict_argmax_witness :
    ∃ pre suf, [(0:Int), 1] = pre ++ FindBestAPA [] 0 [0, 1] :: suf ∧
      (∀ a ∈ pre, sumADC [] 0 a < sumADC [] 0 (FindBestAPA [] 0 [0, 1])) ∧
      (∀ a ∈ [(0:Int), 1], sumADC [] 0 a ≤ sumADC [] 0 (FindBestAPA [] 0 [0, 1])) :=
  c4_first_strict_argmax [] 0 [0, 1] (by decide) (by decide)

theorem getD_map_range {α : Type _} {n x : ℕ} (f : ℕ → α) (d : α) (hx : x < n) :
    ((List.range n).map f).getD x d = f x := by
  rw [List.getD_eq_getElem?_getD, List.getElem?_map, List.getElem?_range hx]
  rfl

/-- C5: the canvas write loop produces an image that is exactly 600×600, and every cell at
coordinates `(x, y)` with `x ≥ image_width` or `y ≥ image_height` (the compressed
sub-rectangle's extent) is exactly zero. -/
theorem c5_canvas_600_zero_outside (w h : Int) (pix : ℕ → ℕ → ℚ) (x y : ℕ)
    (hx : x < 600) (hy : y < 600) (hout : w ≤ (x:Int) ∨ h ≤ (y:Int)) :
    (buildCanvas w h pix).length = 600 ∧
    ((buildCanvas w h pix).getD x []).length = 600 ∧
    ((buildCanvas w h pix).getD x []).getD y 0 = 0 := by
  unfold buildCanvas
  refine ⟨by simp, ?_, ?_⟩
  · rw [getD_map_range _ _ hx]
    simp
  · rw [getD_map_range _ _ hx, getD_map_range _ _ hy, if_neg]
    omega

/-- Witness for C5 at concrete extents and coordinates. -/
theorem c5_canvas_600_zero_outside_witness :
    (buildCanvas 0 0 (fun _ _ => (1:ℚ))).length = 600 ∧
    ((buildCanvas 0 0 (fun _ _ => (1:ℚ))).getD 0 []).length = 600 ∧
    ((buildCanvas 0 0 (fun _ _ => (1:ℚ))).getD 0 []).getD 0 0 = 0 :=
  c5_canvas_600_zero_outside 0 0 (fun _ _ => 1) 0 0 (by norm_num) (by norm_num)
    (Or.inl (by norm_num))

/-- C6: if `FindROI` returns the `-1` sentinel for any of the three planes of the selected
APA, `analyze` returns without emitting any image or event record for that event — partial
per-plane output is never emitted. -/
theorem c6_skip_event_on_noROI (wires : List (Int × List ℚ)) (maxTick : ℕ) (cut : ℚ)
    (eventType : Int)
    (h : (FindROI (fillWireMap wires).1 cut
          (FindBestAPA (fillWireMap wires).1 maxTick (fillWireMap wires).2) 0).1 = .noROI ∨
        (FindROI (fillWireMap wires).1 cut
          (FindBestAPA (fillWireMap wires).1 maxTick (fillWireMap wires).2) 1).1 = .noROI ∨
        (FindROI (fillWireMap wires).1 cut
          (FindBestAPA (fillWireMap wires).1 maxTick (fillWireMap wires).2) 2).1 = .noROI) :
    emitted (analyze wires maxTick cut eventType) = false := by
  unfold analyze
  dsimp only
  split_ifs with h1 h2
  · rfl
  · rfl
  · cases hA : (FindROI (fillWireMap wires).1 cut
        (FindBestAPA (fillWireMap wires).1 maxTick (fillWireMap wires).2) 0).1 with
    | fatal => rfl
    | noROI => rfl
    | ok d0 r0 =>
      cases hB : (FindROI (fillWireMap wires).1 cut
          (FindBestAPA (fillWireMap wires).1 maxTick (fillWireMap wires).2) 1).1 with
      | fatal => rfl
      | noROI => rfl
      | ok d1 r1 =>
        cases hC : (FindROI (fillWireMap wires).1 cut
            (FindBestAPA (fillWireMap wires).1 maxTick (fillWireMap wires).2) 2).1 with
        | fatal => rfl
        | noROI => rfl
        | ok d2 r2 =>
          exfalso
          rcases h with h | h | h
          · rw [hA] at h
            exact FindROIResult.noConfusion h
          · rw [hB] at h
            exact FindROIResult.noConfusion h
          · rw [hC] at h
            exact FindROIResult.noConfusion h

/-- Witness for C6: an event with signal only on plane 0, so plane 1's ROI search fails and
no record is emitted. -/
theorem c6_skip_event_on_noROI_witness :
    emitted (analyze [((0:Int), [(1:ℚ)])] 0 0 7) = false :=
  c6_skip_event_on_noROI [((0:Int), [(1:ℚ)])] 0 0 7
    (Or.inr (Or.inl findROI_eval_pipeline_plane1))

set_option maxRecDepth 4000 in
/-- C7 (code bug): on the event with wires `(0, [1]), (800, [1]), (1600, [1])` and ADC cut
0, `FindROI` succeeds on plane 0 with an ROI spanning ticks 0..43, yet channel 0 stores only
one sample: the grid-fill loop of `analyze` reads `fWireMap[0][1] .. fWireMap[0][43]` past
the end of the stored sample vector — the C++ checks channel presence but not the tick
bound, unlike the corresponding read in `FindBestAPA`, so the claimed "zero if out of
range" handling does not happen. -/
theorem c7_grid_read_out_of_bounds :
    (FindROI [((0:Int), [(1:ℚ)]), (800, [1]), (1600, [1])] 0 0 0).1
      = .ok 1 ⟨0, 10, 0, 43, 11, 44⟩ ∧
    gridReadsInBounds [((0:Int), [(1:ℚ)]), (800, [1]), (1600, [1])]
      ⟨0, 10, 0, 43, 11, 44⟩ = false :=
  ⟨findROI_eval_threePlanes_plane0, by decide⟩

/-- C8 (counterexample): ingesting `(0, [1])` and then `(0, [2])` does not overwrite — the
subsequent lookup does not return the newly supplied sample sequence `[2]`. -/
theorem c8_insert_does_not_overwrite :
    List.lookup (0:Int) (wmInsert (wmInsert [] 0 [(1:ℚ)]) 0 [2]) ≠ some [2] := by
  decide

/-- C8 (amended): when the channel is already present, `wmInsert` (`std::map::insert`)
keeps the stored sample sequence unchanged: the first ingested sequence for a channel is
the one subsequently looked up. -/
theorem c8_insert_keeps_existing (m : WireMap) (c : Int) (s s2 : List ℚ)
    (h : m.lookup c = some s) : (wmInsert m c s2).lookup c = some s := by
  unfold wmInsert
  rw [h]
  simp only [Option.isSome_some, if_true]
  exact h

/-- Witness for C8 (amended) at a concrete map. -/
theorem c8_insert_keeps_existing_witness :
    (wmInsert [((0:Int), [(1:ℚ)])] 0 [2]).lookup 0 = some [1] :=
  c8_insert_keeps_existing [((0:Int), [(1:ℚ)])] 0 [1] [2] (by decide)

/-- C9: for every non-empty list of APA indices (which are non-negative by construction),
`FindBestAPA` returns an element of the list and never the `-1` failure sentinel, even when
all summed amplitudes are zero; hence the "Could not find good APA" skip branch of
`analyze` is unreachable whenever the active-APA set is non-empty. -/
theorem c9_best_apa_total (wm : WireMap) (maxTick : ℕ) (apas : List Int)
    (hne : apas ≠ []) (hpos : ∀ x ∈ apas, (0:Int) ≤ x) :
    FindBestAPA wm maxTick apas ∈ apas ∧ FindBestAPA wm maxTick apas ≠ -1 := by
  obtain ⟨pre, suf, hdec, -, -⟩ := findBestAPA_spec hne hpos
  have hsplit : ∀ (l pre2 suf2 : List Int) (b : Int), l = pre2 ++ b :: suf2 → b ∈ l := by
    intro l pre2 suf2 b hl
    subst hl
    exact List.mem_append.mpr (Or.inr (List.mem_cons_self _ _))
  have hmem : FindBestAPA wm maxTick apas ∈ apas := hsplit apas pre suf _ hdec
  refine ⟨hmem, ?_⟩
  have := hpos _ hmem
  omega

/-- Witness for C9: a two-candidate list with an empty wire map (all sums zero). -/
theorem c9_best_apa_total_witness :
    FindBestAPA [] 0 [0, 1] ∈ [(0:Int), 1] ∧ FindBestAPA [] 0 [0, 1] ≠ -1 :=
  c9_best_apa_total [] 0 [0, 1] (by decide) (by decide)

end LArCVMaker
